/-
Verification of the dnd-buddy-infrastructure core against its specification.

Shallow embedding of:
  * src/lambdas/indexing/handler.py        (chunk_text, embed/upsert phases)
  * src/lambdas/dnd-buddy-agent/tools/search_campaign.py
  * src/lambdas/dnd-buddy-agent/tools/get_history.py
  * src/lambdas/dnd-buddy-agent/agent.py   (orchestration loop and entry point)

Modelling conventions:
  * Python strings indexed by integer positions are modelled as `List Char`
    where positional arithmetic matters (the chunker); opaque text is `String`.
  * External services (LLMs, embeddings, the vector index, DynamoDB) are
    oracles: total functions supplied as an environment.  Exceptions raised by
    a service would abort the turn; the claims under study are about the
    non-raising behaviours, so oracles are total and the failure modes that
    the code itself handles (falsy returns, write-failure flags) are explicit.
  * Python truthiness of a string is `s = ""`; of a list, `l = []`.
  * `int(chunk_size * 0.2)` equals `chunk_size / 5` (Nat division) for the
    sizes exercised here (all multiples of 5, where the float product is
    exact); the definition uses `size / 5`.
  * Python `repr` of an argument value is modelled as wrapping in single
    quotes (enough for the substring checks the code performs).
-/
import Mathlib

namespace DndBuddy

/-! ### Small string helpers shared by several components -/

/-- A single-quote character (Python `repr` delimiter). -/
def squote : String := String.singleton (Char.ofNat 39)

/-- Python `repr(v)` for a string value, as used in tool-call display strings. -/
def pyRepr (v : String) : String := squote ++ v ++ squote

/-- Python `sep.join(xs)`. -/
def joinWith (sep : String) : List String → String
  | [] => ""
  | [x] => x
  | x :: y :: rest => x ++ sep ++ joinWith sep (y :: rest)

/-- Membership of `pat` as a contiguous sublist of the haystack. -/
def strContainsAux (pat : List Char) : List Char → Bool
  | [] => pat.isEmpty
  | c :: rest => pat.isPrefixOf (c :: rest) || strContainsAux pat rest

/-- Python `pat in hay` (substring containment). -/
def strContains (hay pat : String) : Bool := strContainsAux pat.data hay.data

/-- Python `str.isspace`-style whitespace, the characters `\s` matches
in the source regex and `str.strip` removes (ASCII texts). -/
def pyIsSpace (c : Char) : Bool :=
  c == ' ' || c == '\t' || c == '\n' || c == '\r' ||
  c == Char.ofNat 11 || c == Char.ofNat 12

/-- Python `str.strip()` on the underlying character list. -/
def pyStripList (l : List Char) : List Char :=
  ((l.dropWhile pyIsSpace).reverse.dropWhile pyIsSpace).reverse

/-- Python `str.strip()`. -/
def pyStrip (s : String) : String := String.mk (pyStripList s.data)

/-- Python `s.startswith(pre)`. -/
def pyStartsWith (s pre : String) : Bool := pre.data.isPrefixOf s.data

/-- Python `str.replace` scanning, one unit of fuel per consumed character
(the source only calls `replace` with a non-empty pattern; for an empty
pattern this copies the input). -/
def pyReplaceAux (pat rep : List Char) : Nat → List Char → List Char
  | 0, l => l
  | fuel + 1, l =>
    if pat ≠ [] && pat.isPrefixOf l && !l.isEmpty then
      rep ++ pyReplaceAux pat rep fuel (l.drop pat.length)
    else
      match l with
      | [] => []
      | c :: rest => c :: pyReplaceAux pat rep fuel rest

/-- Python `s.replace(pat, rep)` (all occurrences, scanning left to right). -/
def pyReplace (s pat rep : String) : String :=
  String.mk (pyReplaceAux pat.data rep.data s.data.length s.data)

/-! ### Chunker — `chunk_text` from src/lambdas/indexing/handler.py -/

/-- One chunk, exactly the dict built by `chunk_text`. -/
structure Chunk where
  text : List Char
  chunkIndex : Nat
  totalChunks : Nat
  startPosition : Nat
  endPosition : Nat
deriving DecidableEq, Repr

/-- Sentence-terminal characters of the regex `[.!?][\s\n]`. -/
def isSentenceTerm (c : Char) : Bool := c == '.' || c == '!' || c == '?'

/-- End offset (relative to the window) of the LAST match of `[.!?][\s\n]`
in the window, if any.  Matches of this pattern can never overlap (a
character cannot be both sentence-terminal and whitespace), so the last
match of `re.finditer` is the rightmost position satisfying the pattern. -/
def lastMatchEnd : List Char → Option Nat
  | [] => none
  | [_] => none
  | a :: b :: rest =>
    match lastMatchEnd (b :: rest) with
    | some m => some (m + 1)
    | none => if isSentenceTerm a && pyIsSpace b then some 2 else none

/-- The end position chosen for the window starting at `start`:
`min(start + chunk_size, len)`, pulled back to the last sentence boundary
found in the trailing `int(chunk_size * 0.2)` characters when the window
does not already reach the end of the text. -/
def chunkEnd (text : List Char) (size start : Nat) : Nat :=
  let end0 := min (start + size) text.length
  if end0 < text.length then
    let ss := max start (end0 - size / 5)
    match lastMatchEnd ((text.drop ss).take (end0 - ss)) with
    | some m => ss + m
    | none => end0
  else end0

/-- The next window start: `end - overlap` (or `end` at text end), bumped
to `end` whenever it fails to advance past the chunk just emitted. -/
def nextStart (text : List Char) (overlap start e : Nat) : Nat :=
  let s1 := if e < text.length then e - overlap else e
  if s1 ≤ start then e else s1

/-- The `while start < len(text)` loop of `chunk_text`.  `fuel` bounds the
number of iterations; `none` models non-termination of the Python loop
(which can happen for `chunk_size = 0`).  `count` is `len(chunks)`. -/
def chunkLoop (text : List Char) (size overlap : Nat) :
    Nat → Nat → Nat → Option (List Chunk)
  | 0, _, _ => none
  | fuel + 1, start, count =>
    if start < text.length then
      let e := chunkEnd text size start
      match chunkLoop text size overlap fuel (nextStart text overlap start e)
          (count + 1) with
      | none => none
      | some rest =>
        some (⟨(text.drop start).take (e - start), count, 0, start, e⟩ :: rest)
    else some []

/-- `chunk_text(text, chunk_size, overlap)`.  Subtraction note: Python
`end - overlap` can go negative; it is then always `≤` the previous start
(which is `≥ 0`), so the degenerate-case branch fires exactly as it does
under Nat truncation, making `Nat` subtraction faithful here. -/
def chunk_text (text : List Char) (size overlap : Nat) : Option (List Chunk) :=
  if text.isEmpty || text.all pyIsSpace then some []
  else if text.length ≤ size then
    some [⟨text, 0, 1, 0, text.length⟩]
  else
    (chunkLoop text size overlap (text.length + 1) 0 0).map fun cs =>
      cs.map fun c => { c with totalChunks := cs.length }

/-! ### Indexing — embed and upsert phases of `index_handler` -/

/-- Metadata attached to each stored vector (step 3 of `index_handler`). -/
structure VectorMeta where
  userId : String
  campaign : String
  filePath : String
  chunkText : String
  chunkIndex : Nat
  totalChunks : Nat
  startPosition : Nat
  endPosition : Nat
  indexedAt : String
deriving DecidableEq, Repr

/-- One record prepared for `put_vectors`. -/
structure VectorRecord where
  key : String
  data : List Int
  metadata : VectorMeta
deriving DecidableEq, Repr

/-- The record built for one chunk: key
`{user_id}#{campaign}#{safe_file_path}#{chunkIndex}` with `/` replaced by
`|` in the path. -/
def mkVectorRecord (uid camp fp ts : String) (ch : Chunk) (emb : List Int) :
    VectorRecord :=
  let safePath := pyReplace fp "/" "|"
  { key := uid ++ "#" ++ camp ++ "#" ++ safePath ++ "#" ++ toString ch.chunkIndex
    data := emb
    metadata :=
      { userId := uid, campaign := camp, filePath := fp
        chunkText := String.mk ch.text, chunkIndex := ch.chunkIndex
        totalChunks := ch.totalChunks, startPosition := ch.startPosition
        endPosition := ch.endPosition, indexedAt := ts } }

/-- Whether the embedding call for a chunk yields a usable vector.  The
oracle returns `none` for the `generate_embedding` path that produces no
embeddings; `some []` is also falsy in Python (`if not embedding`). -/
def embedOk (embed : String → Option (List Int)) (ch : Chunk) : Bool :=
  !((embed (String.mk ch.text)).getD []).isEmpty

/-- The `for chunk in chunks` embed loop of `index_handler` (step 3):
a chunk whose embedding is falsy is skipped (`continue`), the rest are
turned into vector records in order. -/
def prepare_vectors (embed : String → Option (List Int))
    (uid camp fp ts : String) : List Chunk → List VectorRecord
  | [] => []
  | ch :: rest =>
    match (embed (String.mk ch.text)).getD [] with
    | [] => prepare_vectors embed uid camp fp ts rest
    | e :: es =>
      mkVectorRecord uid camp fp ts ch (e :: es) ::
        prepare_vectors embed uid camp fp ts rest

/-- The upsert batching loop of `index_handler` (step 4), batch size 500. -/
def batchAux (α : Type) : Nat → List α → List (List α)
  | 0, _ => []
  | fuel + 1, l => if l.isEmpty then [] else l.take 500 :: batchAux α fuel (l.drop 500)

/-- Batches sent to `put_vectors`. -/
def upsertBatches (vs : List VectorRecord) : List (List VectorRecord) :=
  batchAux VectorRecord (vs.length + 1) vs

/-- `chunks_stored`: the sum of the batch sizes sent. -/
def chunksStored (vs : List VectorRecord) : Nat :=
  ((upsertBatches vs).map List.length).sum

/-! ### Retrieval — `search_campaign` from tools/search_campaign.py -/

/-- One conjunct of the `$and` metadata filter. -/
inductive FilterCond where
  | userId (v : String)
  | campaign (v : String)
  | category (v : String)
deriving DecidableEq, Repr

/-- A record returned by `query_vectors`, reduced to the metadata fields the
formatter reads (`None` fields model absent metadata keys). -/
structure SRecord where
  chunkText : Option String
  category : Option String
  filename : Option String
deriving DecidableEq, Repr

/-- The external services `search_campaign` talks to: the query-mode
embedding call and `query_vectors` (filter, query vector, topK). -/
structure SearchEnv where
  embed : String → List Int
  query : List FilterCond → List Int → Nat → List SRecord

/-- One entry of the numbered result list:
`Result {i} (from {category}/{filename}):\n{chunk_text}\n`. -/
def formatEntry (i : Nat) (r : SRecord) : String :=
  "Result " ++ toString i ++ " (from " ++ r.category.getD "unknown" ++ "/" ++
    r.filename.getD "unknown" ++ "):\n" ++ r.chunkText.getD "" ++ "\n"

/-- Python `enumerate(results, 1)` over the records. -/
def formatEntries (i : Nat) : List SRecord → List String
  | [] => []
  | r :: rest => formatEntry i r :: formatEntries (i + 1) rest

/-- `"\n".join(formatted_results)`. -/
def formatResults (rs : List SRecord) : String := joinWith "\n" (formatEntries 1 rs)

/-- The no-result sentinel string (`category or 'all'` uses truthiness). -/
def noInfoMsg (query : String) (category : Option String) : String :=
  "No relevant information found in the campaign for query: " ++ squote ++
    query ++ squote ++ " (category: " ++
    (match category with
     | some c => if c = "" then "all" else c
     | none => "all") ++ ")"

/-- Python truthiness of the optional `category` argument. -/
def catTruthy : Option String → Bool
  | none => false
  | some c => !(c = "")

/-- `search_campaign(query, category, top_k, user_id, campaign)`.  The second
component logs every `query_vectors` call as (filter, query vector, topK),
in order, so the retry discipline is part of the model. -/
def search_campaign (env : SearchEnv) (query : String) (category : Option String)
    (top_k : Nat) (user_id campaign : String) :
    String × List (List FilterCond × List Int × Nat) :=
  if user_id = "" ∨ campaign = "" then ("Error: User context not available", [])
  else
    let emb := env.embed query
    let baseConds := [FilterCond.userId user_id, FilterCond.campaign campaign]
    let conds :=
      match category with
      | some c => if c = "" then baseConds else baseConds ++ [FilterCond.category c]
      | none => baseConds
    let r1 := env.query conds emb top_k
    let (results, calls) :=
      if r1.isEmpty && catTruthy category then
        (env.query baseConds emb top_k,
         [(conds, emb, top_k), (baseConds, emb, top_k)])
      else (r1, [(conds, emb, top_k)])
    if results.isEmpty then (noInfoMsg query category, calls)
    else (formatResults results, calls)

/-! ### History store — tools/get_history.py -/

/-- A message as stored in DynamoDB chat history. -/
inductive StoredMsg where
  | human (content : String)
  | ai (content : String) (hasToolCalls : Bool)
  | other
deriving DecidableEq, Repr

/-- A message surviving `clean_history_messages`. -/
inductive CleanMsg where
  | human (content : String)
  | ai (content : String)
deriving DecidableEq, Repr

/-- `clean_history_messages`: keep `HumanMessage`s and `AIMessage`s without
tool calls, drop everything else. -/
def clean_history_messages : List StoredMsg → List CleanMsg
  | [] => []
  | StoredMsg.human c :: rest => CleanMsg.human c :: clean_history_messages rest
  | StoredMsg.ai _ true :: rest => clean_history_messages rest
  | StoredMsg.ai c false :: rest => CleanMsg.ai c :: clean_history_messages rest
  | StoredMsg.other :: rest => clean_history_messages rest

/-- The module state: the process-local `_history_cache` dict and the
durable DynamoDB table contents, keyed by session id. -/
structure HistState where
  cache : List (String × List CleanMsg)
  store : String → List StoredMsg

/-- `load_history(session_id)`: serve from cache when present, otherwise
read the durable store, clean, and populate the cache. -/
def load_history (st : HistState) (sid : String) : List CleanMsg × HistState :=
  match st.cache.find? (fun kv => kv.1 == sid) with
  | some kv => (kv.2, st)
  | none =>
    let msgs := clean_history_messages (st.store sid)
    (msgs, { st with cache := (sid, msgs) :: st.cache })

/-- Whether `load_history` will read the durable store (cache miss). -/
def cacheMiss (st : HistState) (sid : String) : Bool :=
  (st.cache.find? (fun kv => kv.1 == sid)).isNone

/-- `get_history_messages(session_id, message_count)`: last `n` cleaned
messages. -/
def get_history_messages (st : HistState) (sid : String) (n : Nat) :
    List CleanMsg × HistState :=
  let (allMsgs, st') := load_history st sid
  if allMsgs.isEmpty then ([], st')
  else if n ≤ allMsgs.length then (allMsgs.drop (allMsgs.length - n), st')
  else (allMsgs, st')

/-- `save_messages(session_id, user_message, ai_message)`: `ok` is whether
the DynamoDB write succeeds.  On success the pair is appended and the cache
entry for the session is deleted; on failure the exception is caught and
swallowed, leaving both the store and the cache untouched. -/
def save_messages (st : HistState) (sid user_message ai_message : String)
    (ok : Bool) : HistState :=
  if ok then
    { store := fun s =>
        if s = sid then
          st.store s ++ [StoredMsg.human user_message, StoredMsg.ai ai_message false]
        else st.store s
      cache := st.cache.filter (fun kv => !(kv.1 == sid)) }
  else st

/-! ### Orchestration — agent.py -/

/-- A tool call produced by the planning model. -/
structure ToolCall where
  name : String
  args : List (String × String)
  id : String
deriving DecidableEq, Repr

/-- LangChain messages, as the graph state holds them. -/
inductive Msg where
  | system (content : String)
  | human (content : String)
  | ai (content : String) (toolCalls : List ToolCall)
  | tool (content : String) (toolCallId : String)
deriving DecidableEq, Repr

/-- External calls the entry point makes, in order. -/
inductive Effect where
  | storeRead (sessionId : String)
  | toolExec (name : String)
  | planCall
  | genCall
  | saveHistory (sessionId : String)
deriving DecidableEq, Repr

/-- The environment of a turn: the two LLMs and the behaviour of the five
real tools.  Whether the history write succeeds is a separate flag passed to
`main`, since it concerns the DynamoDB write alone. -/
structure AgentEnv where
  plan : List Msg → String × List ToolCall
  toolRun : String → List (String × String) → String
  gen : List Msg → String

/-- `isinstance(msg, AIMessage) and msg.tool_calls` (a truthy, i.e.
non-empty, list). -/
def isToolCallAI : Msg → Bool
  | Msg.ai _ (_ :: _) => true
  | _ => false

/-- The iteration count of `_agent_node`: AI messages carrying tool calls. -/
def countToolCallAI (msgs : List Msg) : Nat := msgs.countP isToolCallAI

/-- `AgentGraphBuilder._agent_node`: cap check, then the planning LLM; its
effect list records whether the planning model was invoked. -/
def agent_node (env : AgentEnv) (maxIter : Nat) (msgs : List Msg) :
    Msg × List Effect :=
  if maxIter ≤ countToolCallAI msgs then
    (Msg.ai "[MAX_ITERATIONS_REACHED]" [], [])
  else
    match env.plan msgs with
    | (_, []) => (Msg.ai "[PLANNING_COMPLETE]" [], [Effect.planCall])
    | (content, tc :: rest) => (Msg.ai content (tc :: rest), [Effect.planCall])

/-- `AgentGraphBuilder._should_continue`: route on the last message. -/
def should_continue (msgs : List Msg) : Bool :=
  match msgs.getLast? with
  | some m => isToolCallAI m
  | none => false

/-- Python dict assignment `d[k] = v` on an insertion-ordered assoc list. -/
def dictSet (k v : String) : List (String × String) → List (String × String)
  | [] => [(k, v)]
  | (k2, v2) :: rest => if k2 = k then (k2, v) :: rest else (k2, v2) :: dictSet k v rest

/-- Context injection: `CONTEXT_TOOLS` get `user_id`/`campaign`,
`SESSION_TOOLS` get `session_id` (injected values overwrite the model). -/
def injectArgs (uid camp sid : String) (name : String)
    (args : List (String × String)) : List (String × String) :=
  let a1 :=
    if name = "search_campaign" ∨ name = "get_file_content" then
      dictSet "campaign" camp (dictSet "user_id" uid args)
    else args
  if name = "get_conversation_history" then dictSet "session_id" sid a1 else a1

/-- The names registered in `TOOL_MAP`. -/
def toolMapNames : List String :=
  ["search_campaign", "roll_dice", "get_file_content",
   "get_conversation_history", "translate_runes"]

/-- The display form of one executed call, `{name}({k}={repr(v)}, ...)`
with the injected keys stripped. -/
def displayEntry (name : String) (args : List (String × String)) : String :=
  let display := args.filter fun kv =>
    !(kv.1 = "user_id" ∨ kv.1 = "campaign" ∨ kv.1 = "session_id")
  if display.isEmpty then name ++ "()"
  else
    name ++ "(" ++
      joinWith ", " (display.map fun kv => kv.1 ++ "=" ++ pyRepr kv.2) ++ ")"

/-- The body of `_tool_node`'s loop: execute each call (unknown names give a
synthetic error result), record the display entry, and build the
`ToolMessage`s correlated by tool-call id. -/
def execCalls (env : AgentEnv) (uid camp sid : String) :
    List ToolCall → List Msg × List String × List Effect
  | [] => ([], [], [])
  | tc :: rest =>
    let args := injectArgs uid camp sid tc.name tc.args
    let result :=
      if tc.name ∈ toolMapNames then env.toolRun tc.name args
      else "Unknown tool: " ++ tc.name
    let r := execCalls env uid camp sid rest
    (Msg.tool result tc.id :: r.1, displayEntry tc.name args :: r.2.1,
     Effect.toolExec tc.name :: r.2.2)

/-- `AgentGraphBuilder._tool_node`: reads the tool calls of the last
message. -/
def tool_node (env : AgentEnv) (uid camp sid : String) (msgs : List Msg) :
    List Msg × List String × List Effect :=
  let tcs :=
    match msgs.getLast? with
    | some (Msg.ai _ tcs) => tcs
    | _ => []
  execCalls env uid camp sid tcs

/-- The compiled LangGraph loop: agent → (tools → agent)* → END.  `fuel`
bounds the number of agent-node activations; `none` models a run that the
fuel could not finish (shown impossible with fuel `maxIter + 1`).  Returns
the final message state, `tools_executed`, and the effect log. -/
def runLoop (env : AgentEnv) (uid camp sid : String) (maxIter : Nat) :
    Nat → List Msg → List String → List Effect →
    Option (List Msg × List String × List Effect)
  | 0, _, _, _ => none
  | fuel + 1, msgs, ex, effs =>
    let p := agent_node env maxIter msgs
    let msgs1 := msgs ++ [p.1]
    if should_continue msgs1 then
      let t := tool_node env uid camp sid msgs1
      runLoop env uid camp sid maxIter fuel (msgs1 ++ t.1) (ex ++ t.2.1)
        (effs ++ p.2 ++ t.2.2)
    else some (msgs1, ex, effs ++ p.2)

/-- Contents of the `ToolMessage`s in a message list (`tool_results`). -/
def toolContents (msgs : List Msg) : List String :=
  msgs.filterMap fun m =>
    match m with
    | Msg.tool c _ => some c
    | _ => none

/-- `build_planning_prompt` (template prose abridged — only its dependence
on campaign, context and recent sessions matters to the claims). -/
def build_planning_prompt (campaign ctx recents : String) : String :=
  "You are D&D Buddy, a D&D 5e campaign assistant for " ++ campaign ++
    ". Decide which tools to call.\n" ++ ctx ++ "\n" ++ recents

/-- `build_creative_prompt` (template prose abridged likewise). -/
def build_creative_prompt (campaign ctx recents : String) : String :=
  "You are D&D Buddy, an expert D&D 5e campaign assistant for " ++ campaign ++
    ". Generate the final answer.\n" ++ ctx ++ "\n" ++ recents

/-- `load_campaign_context`: a direct `search_campaign.invoke` call whose
result feeds the prompts. -/
def load_campaign_context (env : AgentEnv) (uid camp : String) :
    String × List Effect :=
  let r := env.toolRun "search_campaign"
    [("query", "world setting themes tone style history magic system background lore"),
     ("top_k", "3"), ("user_id", uid), ("campaign", camp)]
  if !(r = "") && !(strContains r "No relevant information found") then
    ("\n" ++ r ++ "\n", [Effect.toolExec "search_campaign"])
  else
    ("\n_No campaign background information available yet._\n",
     [Effect.toolExec "search_campaign"])

/-- `load_recent_sessions`: same shape, empty string when nothing found. -/
def load_recent_sessions (env : AgentEnv) (uid camp : String) :
    String × List Effect :=
  let r := env.toolRun "search_campaign"
    [("query", "recent session last game latest adventure current quest"),
     ("top_k", "2"), ("user_id", uid), ("campaign", camp)]
  if !(r = "") && !(strContains r "No relevant information found") then
    ("\n**RECENT SESSIONS:**\n" ++ r ++ "\n", [Effect.toolExec "search_campaign"])
  else ("", [Effect.toolExec "search_campaign"])

/-- `AgentGraphBuilder.get_tools_summary`. -/
def get_tools_summary (executed : List String) : String :=
  if executed.isEmpty then ""
  else "\n\n---\n" ++ joinWith "\n" (executed.map fun t => "- _" ++ t ++ "_")

/-- The passthrough test of `main` (lines 527-531): at least one executed
tool and every `tools_executed` entry contains a `PASSTHROUGH_TOOLS` name
(`translate_runes`) as a substring.  `set(...)` only deduplicates, which
does not change an `all` test. -/
def passthroughOnly (executed : List String) : Bool :=
  !executed.isEmpty && executed.all fun t => strContains t "translate_runes"

/-- A cleaned history message as it re-enters the LangChain message list. -/
def cleanToMsg : CleanMsg → Msg
  | CleanMsg.human c => Msg.human c
  | CleanMsg.ai c => Msg.ai c []

/-- `AgentGraphBuilder.generate_final_response`: the creative prompt, the
history, the user message, and (when present) the gathered tool results. -/
def generate_final_response (env : AgentEnv) (camp ctx recents user_message : String)
    (histMsgs : List CleanMsg) (tool_results : List String) : String :=
  let base := Msg.system (build_creative_prompt camp ctx recents) ::
    (histMsgs.map cleanToMsg ++ [Msg.human user_message])
  let finalMsgs :=
    if tool_results.isEmpty then base
    else base ++ [Msg.human
      ("Here is the information gathered from the campaign:\n\n" ++
        joinWith "\n\n" tool_results ++ "\n\nProvide a helpful response.")]
  env.gen finalMsgs

/-- The turn request. -/
structure TurnInput where
  userId : String
  campaign : String
  prompt : String
  sessionId : Option String

/-- The dict returned by `main`. -/
inductive MainResult where
  | ok (response userId campaign sessionId : String)
  | error (msg : String)
deriving DecidableEq, Repr

/-- `MainResult.isOk`. -/
def MainResult.isOk : MainResult → Bool
  | MainResult.ok _ _ _ _ => true
  | MainResult.error _ => false

/-- `session_id = input_data.get('sessionId', f"{user_id}-{campaign}-default")`. -/
def resolved_session (input : TurnInput) : String :=
  input.sessionId.getD (input.userId ++ "-" ++ input.campaign ++ "-default")

/-- Everything a run of `main` produces: the response, the history-state
after the turn, the ordered external-call log, the final loop messages and
`tools_executed` (empty on the validation-error paths). -/
structure RunOut where
  result : MainResult
  hist : HistState
  effects : List Effect
  messages : List Msg
  executed : List String

/-- Number of creative-model invocations in a run. -/
def RunOut.genCount (o : RunOut) : Nat := o.effects.count Effect.genCall

/-- The post-loop half of `main` (lines 524-565): passthrough check, final
generation, tools summary, history write, and the success response.
`saveOk` is whether the DynamoDB write inside `save_messages` succeeds. -/
def finishTurn (env : AgentEnv) (saveOk : Bool) (hist1 : HistState)
    (uid camp sid user_message ctx recents : String) (histMsgs : List CleanMsg)
    (preEffs : List Effect) (finalMsgs : List Msg) (executed : List String)
    (loopEffs : List Effect) : RunOut :=
  let tool_results := toolContents finalMsgs
  let g :=
    if passthroughOnly executed && !tool_results.isEmpty then
      (tool_results.getLast?.getD "", ([] : List Effect))
    else
      (generate_final_response env camp ctx recents user_message histMsgs
        tool_results, [Effect.genCall])
  let summary := get_tools_summary executed
  let response := if summary = "" then g.1 else g.1 ++ summary
  let ai_message :=
    if summary = "" then response else pyStrip (pyReplace response summary "")
  { result := MainResult.ok response uid camp sid
    hist := save_messages hist1 sid user_message ai_message saveOk
    effects := preEffs ++ loopEffs ++ g.2 ++ [Effect.saveHistory sid]
    messages := finalMsgs
    executed := executed }

/-- The message list handed to the planning agent:
`[planning system prompt] + history + [new user message]`. -/
def planningMessages (env : AgentEnv) (hist : HistState) (input : TurnInput) :
    List Msg :=
  Msg.system (build_planning_prompt input.campaign
      (load_campaign_context env input.userId input.campaign).1
      (load_recent_sessions env input.userId input.campaign).1) ::
    ((get_history_messages hist (resolved_session input) 2).1.map cleanToMsg ++
      [Msg.human input.prompt])

/-- External calls made before the loop starts: the (conditional) durable
history read and the two context searches. -/
def preEffects (env : AgentEnv) (hist : HistState) (input : TurnInput) :
    List Effect :=
  (if cacheMiss hist (resolved_session input) then
    [Effect.storeRead (resolved_session input)] else []) ++
  (load_campaign_context env input.userId input.campaign).2 ++
  (load_recent_sessions env input.userId input.campaign).2

/-- The body of `main` after validation has passed. -/
def mainValid (env : AgentEnv) (saveOk : Bool) (maxIter : Nat)
    (hist : HistState) (input : TurnInput) : RunOut :=
  match runLoop env input.userId input.campaign (resolved_session input)
      maxIter (maxIter + 1) (planningMessages env hist input) [] [] with
  | none =>
    { result := MainResult.error "loop fuel exhausted"
      hist := (get_history_messages hist (resolved_session input) 2).2
      effects := preEffects env hist input
      messages := [], executed := [] }
  | some out =>
    finishTurn env saveOk (get_history_messages hist (resolved_session input) 2).2
      input.userId input.campaign (resolved_session input) input.prompt
      (load_campaign_context env input.userId input.campaign).1
      (load_recent_sessions env input.userId input.campaign).1
      (get_history_messages hist (resolved_session input) 2).1
      (preEffects env hist input) out.1 out.2.1 out.2.2

/-- `main(input_data)`: validation, history and context loading, the
planning/execution loop, then `finishTurn`.  The loop is given fuel
`maxIter + 1`, which the cap argument proves sufficient; the fuel-out
branch is unreachable. -/
def main (env : AgentEnv) (saveOk : Bool) (maxIter : Nat) (hist : HistState)
    (input : TurnInput) : RunOut :=
  if input.userId = "" ∨ input.campaign = "" ∨ input.prompt = "" then
    { result := MainResult.error "Missing required parameters: userId, campaign, prompt"
      hist := hist, effects := [], messages := [], executed := [] }
  else if pyStartsWith (resolved_session input) (input.userId ++ "-") = false then
    { result := MainResult.error "Invalid session: session does not belong to the authenticated user"
      hist := hist, effects := [], messages := [], executed := [] }
  else mainValid env saveOk maxIter hist input

/-! ## Chunker proofs (claims C4 and C5) -/

theorem lastMatchEnd_ge_two :
    ∀ (w : List Char) (m : Nat), lastMatchEnd w = some m → 2 ≤ m := by
  intro w
  induction w with
  | nil => intro m h; simp [lastMatchEnd] at h
  | cons a rest ih =>
    cases rest with
    | nil => intro m h; simp [lastMatchEnd] at h
    | cons b rest2 =>
      intro m h
      simp only [lastMatchEnd] at h
      cases h2 : lastMatchEnd (b :: rest2) with
      | some m2 =>
        rw [h2] at h
        have := ih m2 h2
        simp only [Option.some.injEq] at h
        omega
      | none =>
        rw [h2] at h
        by_cases hb : (isSentenceTerm a && pyIsSpace b) = true
        · rw [if_pos hb] at h
          simp only [Option.some.injEq] at h
          omega
        · rw [if_neg hb] at h
          simp at h

theorem chunkEnd_gt (text : List Char) (size start : Nat) (hs : 1 ≤ size)
    (h : start < text.length) : start < chunkEnd text size start := by
  simp only [chunkEnd]
  split
  · split
    · rename_i m heq
      have := lastMatchEnd_ge_two _ m heq
      have hmax : start ≤ max start (min (start + size) text.length - size / 5) :=
        le_max_left _ _
      omega
    · omega
  · omega

theorem nextStart_gt (text : List Char) (overlap start e : Nat) (he : start < e) :
    start < nextStart text overlap start e := by
  simp only [nextStart]
  split <;> split <;> omega

theorem chunkLoop_spec (text : List Char) (size overlap : Nat) (hs : 1 ≤ size) :
    ∀ (fuel start count : Nat), text.length - start < fuel →
    ∃ cs, chunkLoop text size overlap fuel start count = some cs ∧
      cs.length ≤ text.length - start ∧
      (∀ c ∈ cs, start ≤ c.startPosition) ∧
      cs.Chain' (fun a b => a.startPosition < b.startPosition) := by
  intro fuel
  induction fuel with
  | zero => intro start count h; exact absurd h (Nat.not_lt_zero _)
  | succ fuel ih =>
    intro start count h
    by_cases hlt : start < text.length
    · have he := chunkEnd_gt text size start hs hlt
      have hns := nextStart_gt text overlap start (chunkEnd text size start) he
      have hrec :
          text.length - nextStart text overlap start (chunkEnd text size start) <
            fuel := by omega
      obtain ⟨rest, hr, hl, hm, hc⟩ :=
        ih (nextStart text overlap start (chunkEnd text size start)) (count + 1) hrec
      refine ⟨⟨(text.drop start).take (chunkEnd text size start - start), count, 0,
        start, chunkEnd text size start⟩ :: rest, ?_, ?_, ?_, ?_⟩
      · simp only [chunkLoop]
        rw [if_pos hlt, hr]
      · simp only [List.length_cons]
        omega
      · intro c hc2
        rcases List.mem_cons.mp hc2 with h1 | h1
        · rw [h1]
        · exact le_of_lt (lt_of_lt_of_le hns (hm c h1))
      · rw [List.chain'_cons']
        refine ⟨?_, hc⟩
        intro b hb
        exact lt_of_lt_of_le hns (hm b (List.mem_of_mem_head? hb))
    · refine ⟨[], ?_, by simp, by simp, by simp⟩
      simp only [chunkLoop]
      rw [if_neg hlt]

/-- C4 (amended).  For nonempty text, `size ≥ 1`, `overlap < size`, the
chunking loop terminates (the Python loop runs one iteration per produced
chunk), each iteration strictly advances the window start past the previous
chunk's start, and hence at most `len(text)` iterations/chunks occur.  The
claimed bound `⌈len/(size−overlap)⌉ + 1` does not hold (see the
counterexample): a sentence-boundary cut can shrink a window by up to
`int(0.2·size) − 2` characters, so an iteration may advance by less than
`size − overlap`. -/
theorem claim4_theorem (text : List Char) (size overlap : Nat)
    (ht : text ≠ []) (hs : 1 ≤ size) (_ho : overlap < size) :
    ∃ cs, chunk_text text size overlap = some cs ∧ cs.length ≤ text.length ∧
      cs.Chain' (fun a b => a.startPosition < b.startPosition) := by
  unfold chunk_text
  by_cases hb : (text.isEmpty || text.all pyIsSpace) = true
  · rw [if_pos hb]
    exact ⟨[], rfl, by simp, by simp⟩
  · rw [if_neg hb]
    by_cases hl : text.length ≤ size
    · rw [if_pos hl]
      refine ⟨[⟨text, 0, 1, 0, text.length⟩], rfl, ?_, by simp⟩
      simpa using List.length_pos.mpr ht
    · rw [if_neg hl]
      obtain ⟨cs, hcs, hlen, _, hch⟩ :=
        chunkLoop_spec text size overlap hs (text.length + 1) 0 0 (by omega)
      refine ⟨cs.map fun c => { c with totalChunks := cs.length }, ?_, ?_, ?_⟩
      · rw [hcs]; rfl
      · simpa using le_trans hlen (by omega)
      · rw [List.chain'_map]
        exact hch

/-- C4 witness: a concrete instance of the amended chunker theorem. -/
theorem claim4_witness :
    ∃ cs, chunk_text ['h', 'i'] 4 1 = some cs ∧ cs.length ≤ (['h', 'i'] : List Char).length ∧
      cs.Chain' (fun a b => a.startPosition < b.startPosition) :=
  claim4_theorem ['h', 'i'] 4 1 (by decide) (by decide) (by decide)

/-- The 233-character counterexample text:
80 × `a`, then 7 sentence boundaries `". "` spaced 22 characters apart with
`a`-runs between, ending in 19 × `a`.  With `chunk_size = 100`,
`overlap = 80` each boundary pulls a window end back by 18 characters, so
the loop advances by only 2 on those iterations. -/
def c4Text : List Char :=
  List.replicate 80 'a' ++
    (List.replicate 6 (['.', ' '] ++ List.replicate 20 'a')).flatten ++
    ['.', ' '] ++ List.replicate 19 'a'

set_option maxRecDepth 100000 in
/-- C4 counterexample: for `c4Text` (233 chars), `size = 100`,
`overlap = 80`, the loop produces 14 chunks, but
`⌈233 / (100 − 80)⌉ + 1 = 13`, refuting the claimed iteration bound. -/
theorem claim4_counterexample :
    ¬ (∀ cs, chunk_text c4Text 100 80 = some cs →
        cs.length ≤ (c4Text.length + (100 - 80) - 1) / (100 - 80) + 1) :=
  fun h =>
    absurd (h ((chunk_text c4Text 100 80).getD []) (by rfl)) (by decide)

/-- C5 counterexample: the all-whitespace text `" "` has length `1 ≤ 5`,
yet `chunk_text` returns `[]` (the blank guard fires first), not the single
whole-text chunk the claim requires for every text with `len(text) ≤ size`. -/
theorem claim5_counterexample :
    ¬ (chunk_text [' '] 5 1 = some [⟨[' '], 0, 1, 0, 1⟩]) := by
  decide

/-- C5 (amended).  For every text that is nonempty and not entirely
whitespace, with `len(text) ≤ size`, `chunk_text` returns exactly one chunk
equal to the whole input, with `chunkIndex 0`, `totalChunks 1`,
`startPosition 0` and `endPosition len(text)`. -/
theorem claim5_theorem (text : List Char) (size overlap : Nat)
    (ht : text.isEmpty = false) (hb : text.all pyIsSpace = false)
    (hlen : text.length ≤ size) :
    chunk_text text size overlap = some [⟨text, 0, 1, 0, text.length⟩] := by
  unfold chunk_text
  rw [ht, hb]
  simp [hlen]

/-- C5 witness: a concrete single-chunk instance. -/
theorem claim5_witness :
    chunk_text ['a'] 3 1 = some [⟨['a'], 0, 1, 0, 1⟩] :=
  claim5_theorem ['a'] 3 1 (by decide) (by decide) (by decide)

/-! ## Indexing embed/upsert proofs (claim C7) -/

theorem batchAux_spec (α : Type) :
    ∀ (fuel : Nat) (l : List α), l.length < fuel →
      (batchAux α fuel l).flatten = l ∧
      ((batchAux α fuel l).map List.length).sum = l.length := by
  intro fuel
  induction fuel with
  | zero => intro l h; exact absurd h (Nat.not_lt_zero _)
  | succ fuel ih =>
    intro l h
    by_cases hl : l.isEmpty
    · rw [List.isEmpty_iff] at hl
      subst hl
      simp [batchAux]
    · have hlen : 0 < l.length := by
        cases l with
        | nil => simp at hl
        | cons a rest => simp
      have hrec : (l.drop 500).length < fuel := by
        rw [List.length_drop]
        omega
      obtain ⟨h1, h2⟩ := ih (l.drop 500) hrec
      simp only [batchAux, hl]
      rw [if_neg (by simp [hl])]
      constructor
      · simp only [List.flatten_cons, h1, List.take_append_drop]
      · simp only [List.map_cons, List.sum_cons, h2, List.length_take,
          List.length_drop]
        omega

/-- C7.  The embed phase of `index_handler` prepares exactly one vector
record per chunk whose embedding call yields a usable (non-falsy) vector,
in the original order — a chunk whose embedding fails is skipped while all
remaining chunks are still embedded; and the upsert phase sends every
prepared record (the batches concatenate back to the full list, and the
`chunks_stored` counter equals the number of prepared records). -/
theorem claim7_theorem (embed : String → Option (List Int))
    (uid camp fp ts : String) (chunks : List Chunk) :
    prepare_vectors embed uid camp fp ts chunks =
      (chunks.filter (embedOk embed)).map
        (fun ch => mkVectorRecord uid camp fp ts ch
          ((embed (String.mk ch.text)).getD [])) ∧
    (upsertBatches (prepare_vectors embed uid camp fp ts chunks)).flatten =
      prepare_vectors embed uid camp fp ts chunks ∧
    chunksStored (prepare_vectors embed uid camp fp ts chunks) =
      (prepare_vectors embed uid camp fp ts chunks).length := by
  refine ⟨?_, ?_, ?_⟩
  · induction chunks with
    | nil => rfl
    | cons ch rest ih =>
      cases h : (embed (String.mk ch.text)).getD [] with
      | nil =>
        have hok : embedOk embed ch = false := by
          simp [embedOk, h]
        simp only [prepare_vectors, h, List.filter_cons, hok]
        exact ih
      | cons e es =>
        have hok : embedOk embed ch = true := by
          simp [embedOk, h]
        simp only [prepare_vectors, h, List.filter_cons, hok, if_pos,
          List.map_cons, ih]
  · exact (batchAux_spec VectorRecord _ _ (by omega)).1
  · exact (batchAux_spec VectorRecord _ _ (by omega)).2

/-! ## Retrieval fallback proofs (claim C3) -/

theorem formatEntry_data (i : Nat) (r : SRecord) :
    ∃ t, (formatEntry i r).data = 'R' :: t := by
  simp only [formatEntry, String.data_append, List.cons_append,
    List.append_assoc]
  exact ⟨_, rfl⟩

theorem noInfoMsg_data (q : String) (cat : Option String) :
    ∃ t, (noInfoMsg q cat).data = 'N' :: t := by
  simp only [noInfoMsg, String.data_append, List.cons_append,
    List.append_assoc]
  exact ⟨_, rfl⟩

theorem formatResults_data (r : SRecord) (rs : List SRecord) :
    ∃ t, (formatResults (r :: rs)).data = 'R' :: t := by
  obtain ⟨t, ht⟩ := formatEntry_data 1 r
  simp only [formatResults, formatEntries]
  cases h : formatEntries 2 rs with
  | nil => exact ⟨t, ht⟩
  | cons y ys =>
    simp only [joinWith, String.data_append, ht]
    simp only [List.cons_append, List.append_assoc]
    exact ⟨_, rfl⟩

theorem formatResults_ne_noInfoMsg (r : SRecord) (rs : List SRecord)
    (q : String) (cat : Option String) :
    formatResults (r :: rs) ≠ noInfoMsg q cat := by
  obtain ⟨t, ht⟩ := formatResults_data r rs
  obtain ⟨u, hu⟩ := noInfoMsg_data q cat
  intro h
  rw [h, hu] at ht
  exact absurd (List.head_eq_of_cons_eq ht) (by decide)

/-- C3.  When a (truthy) category filter is supplied and the filtered
nearest-neighbour query returns zero results, `search_campaign` retries
exactly once with the category condition removed — same query embedding,
same `topK` — and, if that unfiltered retry returns at least one record,
returns the formatted results, which are never the
"no relevant information" sentinel. -/
theorem claim3_theorem (env : SearchEnv) (q cat : String) (k : Nat)
    (u c : String) (hu : u ≠ "") (hc : c ≠ "") (hcat : cat ≠ "")
    (r : SRecord) (rs : List SRecord)
    (h1 : env.query [FilterCond.userId u, FilterCond.campaign c,
      FilterCond.category cat] (env.embed q) k = [])
    (h2 : env.query [FilterCond.userId u, FilterCond.campaign c]
      (env.embed q) k = r :: rs) :
    search_campaign env q (some cat) k u c =
      (formatResults (r :: rs),
       [([FilterCond.userId u, FilterCond.campaign c, FilterCond.category cat],
         env.embed q, k),
        ([FilterCond.userId u, FilterCond.campaign c], env.embed q, k)]) ∧
    formatResults (r :: rs) ≠ noInfoMsg q (some cat) := by
  refine ⟨?_, formatResults_ne_noInfoMsg r rs q (some cat)⟩
  have hconds : ([FilterCond.userId u, FilterCond.campaign c] ++
      [FilterCond.category cat]) =
      [FilterCond.userId u, FilterCond.campaign c, FilterCond.category cat] := rfl
  unfold search_campaign
  rw [if_neg (by simp [hu, hc])]
  simp only [catTruthy, hcat, decide_False, Bool.not_false, if_false, hconds,
    h1, h2]
  simp

/-- Witness environment for C3: one record visible only without the
category condition. -/
def w3Env : SearchEnv :=
  { embed := fun _ => [1, 2]
    query := fun conds _ _ =>
      if conds.length = 3 then []
      else [⟨some "chunk text", some "lore", some "world.md"⟩] }

/-- C3 witness: the fallback retry returns the unfiltered results. -/
theorem claim3_witness :
    search_campaign w3Env "dragons" (some "npcs") 5 "u1" "camp" =
      (formatResults [⟨some "chunk text", some "lore", some "world.md"⟩],
       [([FilterCond.userId "u1", FilterCond.campaign "camp",
          FilterCond.category "npcs"], w3Env.embed "dragons", 5),
        ([FilterCond.userId "u1", FilterCond.campaign "camp"],
         w3Env.embed "dragons", 5)]) ∧
    formatResults [⟨some "chunk text", some "lore", some "world.md"⟩] ≠
      noInfoMsg "dragons" (some "npcs") :=
  claim3_theorem w3Env "dragons" "npcs" 5 "u1" "camp" (by decide) (by decide)
    (by decide) ⟨some "chunk text", some "lore", some "world.md"⟩ [] rfl rfl

/-! ## History cache proofs (claim C8) -/

theorem clean_history_append (a b : List StoredMsg) :
    clean_history_messages (a ++ b) =
      clean_history_messages a ++ clean_history_messages b := by
  induction a with
  | nil => rfl
  | cons m rest ih =>
    cases m with
    | human c => simp [clean_history_messages, ih]
    | ai c tc => cases tc <;> simp [clean_history_messages, ih]
    | other => simp [clean_history_messages, ih]

theorem find?_filter_out (l : List (String × List CleanMsg)) (sid : String) :
    (l.filter fun kv => !(kv.1 == sid)).find? (fun kv => kv.1 == sid) = none := by
  rw [List.find?_eq_none]
  intro kv hkv
  have := List.of_mem_filter hkv
  simp at this
  simp [this]

/-- C8.  After a successful `save_messages(sessionId, u, a)`:
the process-local cache no longer holds an entry for that session id, a
subsequent `load_history(sessionId)` therefore reads the durable store, and
its result is the cleaned durable content, which ends with the newly saved
user/assistant pair. -/
theorem claim8_theorem (st : HistState) (sid u a : String) :
    (save_messages st sid u a true).cache.find? (fun kv => kv.1 == sid) = none ∧
    (load_history (save_messages st sid u a true) sid).1 =
      clean_history_messages ((save_messages st sid u a true).store sid) ∧
    (load_history (save_messages st sid u a true) sid).1 =
      clean_history_messages (st.store sid) ++
        [CleanMsg.human u, CleanMsg.ai a] := by
  have hcache : (save_messages st sid u a true).cache =
      st.cache.filter (fun kv => !(kv.1 == sid)) := by
    simp [save_messages]
  have hstore : (save_messages st sid u a true).store sid =
      st.store sid ++ [StoredMsg.human u, StoredMsg.ai a false] := by
    simp [save_messages]
  have hfind : (save_messages st sid u a true).cache.find?
      (fun kv => kv.1 == sid) = none := by
    rw [hcache]; exact find?_filter_out st.cache sid
  refine ⟨hfind, ?_, ?_⟩
  · simp [load_history, hfind]
  · simp only [load_history, hfind]
    rw [hstore, clean_history_append]
    rfl

/-! ## Orchestration-loop lemmas (shared by claims C1, C2, C6, C9, C10) -/

theorem isPrefixOf_append_self (p l : List Char) :
    p.isPrefixOf (p ++ l) = true := by
  induction p with
  | nil => simp [List.isPrefixOf]
  | cons a as ih => simp [List.isPrefixOf, ih]

theorem strContainsAux_self (p rest : List Char) :
    strContainsAux p (p ++ rest) = true := by
  cases p with
  | nil =>
    cases rest with
    | nil => rfl
    | cons c cs => simp [strContainsAux, List.isPrefixOf]
  | cons c cs =>
    show strContainsAux (c :: cs) (c :: (cs ++ rest)) = true
    simp only [strContainsAux, Bool.or_eq_true]
    exact Or.inl (isPrefixOf_append_self (c :: cs) rest)

theorem strContains_self_append (n s : String) :
    strContains (n ++ s) n = true := by
  simp only [strContains, String.data_append]
  exact strContainsAux_self n.data s.data

theorem displayEntry_shape (name : String) (args : List (String × String)) :
    ∃ s, displayEntry name args = name ++ s := by
  simp only [displayEntry]
  split
  · exact ⟨"()", rfl⟩
  · exact ⟨"(" ++
      joinWith ", " ((args.filter fun kv =>
        !(kv.1 = "user_id" ∨ kv.1 = "campaign" ∨ kv.1 = "session_id")).map
          fun kv => kv.1 ++ "=" ++ pyRepr kv.2) ++ ")",
      by simp [String.append_assoc]⟩

theorem countToolCallAI_append (a b : List Msg) :
    countToolCallAI (a ++ b) = countToolCallAI a + countToolCallAI b :=
  List.countP_append _ _ _

theorem toolContents_append (a b : List Msg) :
    toolContents (a ++ b) = toolContents a ++ toolContents b :=
  List.filterMap_append _ _ _

theorem countToolCallAI_cleanMsgs (l : List CleanMsg) :
    countToolCallAI (l.map cleanToMsg) = 0 := by
  induction l with
  | nil => rfl
  | cons m rest ih =>
    cases m <;> simp [countToolCallAI, cleanToMsg, List.countP_cons,
      isToolCallAI] <;> simpa [countToolCallAI] using ih

theorem execCalls_spec (env : AgentEnv) (uid camp sid : String)
    (tcs : List ToolCall) :
    countToolCallAI (execCalls env uid camp sid tcs).1 = 0 ∧
    (execCalls env uid camp sid tcs).2.1.length = tcs.length ∧
    (toolContents (execCalls env uid camp sid tcs).1).length = tcs.length ∧
    (execCalls env uid camp sid tcs).2.2.count Effect.genCall = 0 ∧
    (execCalls env uid camp sid tcs).2.2.count Effect.planCall = 0 := by
  induction tcs with
  | nil => simp [execCalls, countToolCallAI, toolContents]
  | cons tc rest ih =>
    obtain ⟨i1, i2, i3, i4, i5⟩ := ih
    simp only [execCalls]
    refine ⟨?_, ?_, ?_, ?_, ?_⟩
    · simpa [countToolCallAI, List.countP_cons, isToolCallAI] using i1
    · simpa using i2
    · simpa [toolContents] using i3
    · rw [List.count_cons_of_ne (by simp)]
      exact i4
    · rw [List.count_cons_of_ne (by simp)]
      exact i5

theorem execCalls_entry_names (env : AgentEnv) (uid camp sid n : String) :
    ∀ tcs : List ToolCall, (∀ tc ∈ tcs, tc.name = n) →
      ∀ s ∈ (execCalls env uid camp sid tcs).2.1, strContains s n = true := by
  intro tcs
  induction tcs with
  | nil => intro _ s hs; simp [execCalls] at hs
  | cons tc rest ih =>
    intro hall s hs
    simp only [execCalls, List.mem_cons] at hs
    rcases hs with h | h
    · obtain ⟨suf, hsuf⟩ :=
        displayEntry_shape tc.name (injectArgs uid camp sid tc.name tc.args)
      rw [h, hsuf, hall tc (List.mem_cons_self _ _)]
      exact strContains_self_append n suf
    · exact ih (fun tc2 h2 => hall tc2 (List.mem_cons_of_mem _ h2)) s h

theorem should_continue_concat (msgs : List Msg) (m : Msg) :
    should_continue (msgs ++ [m]) = isToolCallAI m := by
  simp [should_continue, List.getLast?_concat]

theorem tool_node_concat (env : AgentEnv) (uid camp sid : String)
    (msgs : List Msg) (c : String) (tcs : List ToolCall) :
    tool_node env uid camp sid (msgs ++ [Msg.ai c tcs]) =
      execCalls env uid camp sid tcs := by
  simp [tool_node, List.getLast?_concat]

theorem agent_node_cap (env : AgentEnv) (maxIter : Nat) (msgs : List Msg)
    (h : maxIter ≤ countToolCallAI msgs) :
    agent_node env maxIter msgs = (Msg.ai "[MAX_ITERATIONS_REACHED]" [], []) := by
  simp [agent_node, h]

theorem agent_node_done (env : AgentEnv) (maxIter : Nat) (msgs : List Msg)
    (h : ¬ maxIter ≤ countToolCallAI msgs) (c : String)
    (hp : env.plan msgs = (c, [])) :
    agent_node env maxIter msgs = (Msg.ai "[PLANNING_COMPLETE]" [], [Effect.planCall]) := by
  simp [agent_node, h, hp]

theorem agent_node_tools (env : AgentEnv) (maxIter : Nat) (msgs : List Msg)
    (h : ¬ maxIter ≤ countToolCallAI msgs) (c : String) (tc : ToolCall)
    (rest : List ToolCall) (hp : env.plan msgs = (c, tc :: rest)) :
    agent_node env maxIter msgs = (Msg.ai c (tc :: rest), [Effect.planCall]) := by
  simp [agent_node, h, hp]

theorem countToolCallAI_one (c : String) (tc : ToolCall) (rest : List ToolCall) :
    countToolCallAI [Msg.ai c (tc :: rest)] = 1 := by
  simp [countToolCallAI, List.countP_cons, isToolCallAI]

/-- Invariants preserved by every completed run of the loop: the tool-round
count stays at most `maxIter`, the loop itself never invokes the creative
model, and tool-result messages and `tools_executed` entries are produced in
lockstep. -/
theorem runLoop_inv (env : AgentEnv) (uid camp sid : String) (maxIter : Nat) :
    ∀ (fuel : Nat) (msgs : List Msg) (ex : List String) (effs : List Effect)
      (m' : List Msg) (e' : List String) (f' : List Effect),
      runLoop env uid camp sid maxIter fuel msgs ex effs = some (m', e', f') →
      (countToolCallAI msgs ≤ maxIter → countToolCallAI m' ≤ maxIter) ∧
      f'.count Effect.genCall = effs.count Effect.genCall ∧
      (toolContents m').length + ex.length =
        (toolContents msgs).length + e'.length := by
  intro fuel
  induction fuel with
  | zero => intro msgs ex effs m' e' f' h; simp [runLoop] at h
  | succ fuel ih =>
    intro msgs ex effs m' e' f' h
    simp only [runLoop] at h
    by_cases hcap : maxIter ≤ countToolCallAI msgs
    · rw [agent_node_cap env maxIter msgs hcap] at h
      simp only [should_continue_concat, isToolCallAI, Bool.false_eq_true,
        if_false, List.append_nil, Option.some.injEq, Prod.mk.injEq] at h
      obtain ⟨h1, h2, h3⟩ := h
      subst h1; subst h2; subst h3
      refine ⟨fun hle => ?_, rfl, ?_⟩
      · rw [countToolCallAI_append]
        simpa [countToolCallAI, List.countP_cons, isToolCallAI] using hle
      · rw [toolContents_append]
        simp [toolContents]
    · rcases hplan : env.plan msgs with ⟨c, tcs⟩
      cases tcs with
      | nil =>
        rw [agent_node_done env maxIter msgs hcap c hplan] at h
        simp only [should_continue_concat, isToolCallAI, Bool.false_eq_true,
          if_false, Option.some.injEq, Prod.mk.injEq] at h
        obtain ⟨h1, h2, h3⟩ := h
        subst h1; subst h2; subst h3
        refine ⟨fun hle => ?_, ?_, ?_⟩
        · rw [countToolCallAI_append]
          simpa [countToolCallAI, List.countP_cons, isToolCallAI] using hle
        · rw [List.count_append]
          simp [List.count_cons]
        · rw [toolContents_append]
          simp [toolContents]
      | cons tc rest =>
        rw [agent_node_tools env maxIter msgs hcap c tc rest hplan] at h
        simp only [should_continue_concat, isToolCallAI, if_true,
          tool_node_concat] at h
        obtain ⟨hc0, hl1, hl2, hg0, hp0⟩ := execCalls_spec env uid camp sid (tc :: rest)
        obtain ⟨j1, j2, j3⟩ := ih _ _ _ _ _ _ h
        refine ⟨fun hle => ?_, ?_, ?_⟩
        · apply j1
          rw [countToolCallAI_append, countToolCallAI_append,
            countToolCallAI_one, hc0]
          omega
        · rw [j2, List.count_append, List.count_append, hg0]
          simp [List.count_cons]
        · rw [toolContents_append, toolContents_append] at j3
          simp only [List.length_append, hl1] at j3 ⊢
          have : (toolContents [Msg.ai c (tc :: rest)]).length = 0 := by
            simp [toolContents]
          omega

/-- With fuel exceeding `maxIter` minus the current tool-round count, the
loop always completes: the iteration cap guarantees termination. -/
theorem runLoop_isSome (env : AgentEnv) (uid camp sid : String) (maxIter : Nat) :
    ∀ (fuel : Nat) (msgs : List Msg) (ex : List String) (effs : List Effect),
      1 ≤ fuel → maxIter < countToolCallAI msgs + fuel →
      (runLoop env uid camp sid maxIter fuel msgs ex effs).isSome := by
  intro fuel
  induction fuel with
  | zero => intro msgs ex effs h1 h2; omega
  | succ fuel ih =>
    intro msgs ex effs _ h2
    simp only [runLoop]
    by_cases hcap : maxIter ≤ countToolCallAI msgs
    · rw [agent_node_cap env maxIter msgs hcap]
      simp [should_continue_concat, isToolCallAI]
    · rcases hplan : env.plan msgs with ⟨c, tcs⟩
      cases tcs with
      | nil =>
        rw [agent_node_done env maxIter msgs hcap c hplan]
        simp [should_continue_concat, isToolCallAI]
      | cons tc rest =>
        rw [agent_node_tools env maxIter msgs hcap c tc rest hplan]
        simp only [should_continue_concat, isToolCallAI, if_true,
          tool_node_concat]
        apply ih
        · omega
        · obtain ⟨hc0, _, _, _, _⟩ := execCalls_spec env uid camp sid (tc :: rest)
          rw [countToolCallAI_append, countToolCallAI_append,
            countToolCallAI_one, hc0]
          omega

/-- When every planned tool call is named `n`, every `tools_executed` entry
contains `n` as a substring. -/
theorem runLoop_names (env : AgentEnv) (uid camp sid : String) (maxIter : Nat)
    (n : String) (hp : ∀ ms tc, tc ∈ (env.plan ms).2 → tc.name = n) :
    ∀ (fuel : Nat) (msgs : List Msg) (ex : List String) (effs : List Effect)
      (m' : List Msg) (e' : List String) (f' : List Effect),
      runLoop env uid camp sid maxIter fuel msgs ex effs = some (m', e', f') →
      (∀ s ∈ ex, strContains s n = true) →
      ∀ s ∈ e', strContains s n = true := by
  intro fuel
  induction fuel with
  | zero => intro msgs ex effs m' e' f' h; simp [runLoop] at h
  | succ fuel ih =>
    intro msgs ex effs m' e' f' h hex
    simp only [runLoop] at h
    by_cases hcap : maxIter ≤ countToolCallAI msgs
    · rw [agent_node_cap env maxIter msgs hcap] at h
      simp only [should_continue_concat, isToolCallAI, Bool.false_eq_true,
        if_false, List.append_nil, Option.some.injEq, Prod.mk.injEq] at h
      obtain ⟨_, h2, _⟩ := h
      subst h2
      exact hex
    · rcases hplan : env.plan msgs with ⟨c, tcs⟩
      cases tcs with
      | nil =>
        rw [agent_node_done env maxIter msgs hcap c hplan] at h
        simp only [should_continue_concat, isToolCallAI, Bool.false_eq_true,
          if_false, Option.some.injEq, Prod.mk.injEq] at h
        obtain ⟨_, h2, _⟩ := h
        subst h2
        exact hex
      | cons tc rest =>
        rw [agent_node_tools env maxIter msgs hcap c tc rest hplan] at h
        simp only [should_continue_concat, isToolCallAI, if_true,
          tool_node_concat] at h
        refine ih _ _ _ _ _ _ h ?_
        intro s hs
        rcases List.mem_append.mp hs with h1 | h1
        · exact hex s h1
        · refine execCalls_entry_names env uid camp sid n (tc :: rest) ?_ s h1
          intro tc2 h2
          refine hp msgs tc2 ?_
          rw [hplan]
          exact h2

/-- With a planner that returns a tool call on every invocation, the loop
runs exactly `maxIter` tool rounds (each invoking the planning model and
executing at least one tool), then terminates via the cap without a further
planning call, the cap message being the last message. -/
theorem runLoop_stub (env : AgentEnv) (uid camp sid : String) (maxIter : Nat)
    (hp : ∀ ms, (env.plan ms).2 ≠ []) :
    ∀ (fuel : Nat) (msgs : List Msg) (ex : List String) (effs : List Effect),
      countToolCallAI msgs ≤ maxIter →
      maxIter < countToolCallAI msgs + fuel →
      ∃ m' e' f',
        runLoop env uid camp sid maxIter fuel msgs ex effs = some (m', e', f') ∧
        countToolCallAI m' = maxIter ∧
        f'.count Effect.planCall =
          effs.count Effect.planCall + (maxIter - countToolCallAI msgs) ∧
        ex.length + (maxIter - countToolCallAI msgs) ≤ e'.length ∧
        m'.getLast? = some (Msg.ai "[MAX_ITERATIONS_REACHED]" []) := by
  intro fuel
  induction fuel with
  | zero => intro msgs ex effs hle h2; omega
  | succ fuel ih =>
    intro msgs ex effs hle h2
    simp only [runLoop]
    by_cases hcap : maxIter ≤ countToolCallAI msgs
    · have heq : countToolCallAI msgs = maxIter := le_antisymm hle hcap
      rw [agent_node_cap env maxIter msgs hcap]
      simp only [should_continue_concat, isToolCallAI, Bool.false_eq_true,
        if_false, List.append_nil]
      refine ⟨_, _, _, rfl, ?_, ?_, ?_, ?_⟩
      · rw [countToolCallAI_append, heq]
        simp [countToolCallAI, List.countP_cons, isToolCallAI]
      · omega
      · omega
      · exact List.getLast?_concat _
    · rcases hplan : env.plan msgs with ⟨c, tcs⟩
      cases tcs with
      | nil =>
        exfalso
        have := hp msgs
        rw [hplan] at this
        exact this rfl
      | cons tc rest =>
        rw [agent_node_tools env maxIter msgs hcap c tc rest hplan]
        simp only [should_continue_concat, isToolCallAI, if_true,
          tool_node_concat]
        obtain ⟨hc0, hl1, _, _, hp0⟩ := execCalls_spec env uid camp sid (tc :: rest)
        have hcount : countToolCallAI (msgs ++ [Msg.ai c (tc :: rest)] ++
            (execCalls env uid camp sid (tc :: rest)).1) =
            countToolCallAI msgs + 1 := by
          rw [countToolCallAI_append, countToolCallAI_append,
            countToolCallAI_one, hc0]
        obtain ⟨m', e', f', hrun, j1, j2, j3, j4⟩ :=
          ih (msgs ++ [Msg.ai c (tc :: rest)] ++
              (execCalls env uid camp sid (tc :: rest)).1)
            (ex ++ (execCalls env uid camp sid (tc :: rest)).2.1)
            (effs ++ [Effect.planCall] ++
              (execCalls env uid camp sid (tc :: rest)).2.2)
            (by rw [hcount]; omega) (by rw [hcount]; omega)
        refine ⟨m', e', f', hrun, j1, ?_, ?_, j4⟩
        · rw [j2, hcount, List.count_append, List.count_append, hp0]
          simp only [List.count_cons, List.count_nil, beq_self_eq_true,
            if_true]
          omega
        · rw [hcount] at j3
          simp only [List.length_append, hl1] at j3
          have : 1 ≤ (tc :: rest).length := by simp
          omega

theorem load_campaign_context_effs (env : AgentEnv) (u c : String) :
    (load_campaign_context env u c).2 = [Effect.toolExec "search_campaign"] := by
  simp only [load_campaign_context]
  split <;> rfl

theorem load_recent_sessions_effs (env : AgentEnv) (u c : String) :
    (load_recent_sessions env u c).2 = [Effect.toolExec "search_campaign"] := by
  simp only [load_recent_sessions]
  split <;> rfl

theorem preEffects_count_genCall (env : AgentEnv) (hist : HistState)
    (input : TurnInput) :
    (preEffects env hist input).count Effect.genCall = 0 := by
  simp only [preEffects, load_campaign_context_effs, load_recent_sessions_effs,
    List.count_append]
  split <;> simp [List.count_cons]

theorem preEffects_count_planCall (env : AgentEnv) (hist : HistState)
    (input : TurnInput) :
    (preEffects env hist input).count Effect.planCall = 0 := by
  simp only [preEffects, load_campaign_context_effs, load_recent_sessions_effs,
    List.count_append]
  split <;> simp [List.count_cons]

theorem countToolCallAI_planning (env : AgentEnv) (hist : HistState)
    (input : TurnInput) :
    countToolCallAI (planningMessages env hist input) = 0 := by
  have h := countToolCallAI_cleanMsgs
    ((get_history_messages hist (resolved_session input) 2).1)
  simp only [countToolCallAI] at h
  simp only [planningMessages, countToolCallAI, List.countP_cons,
    List.countP_append]
  simp [isToolCallAI, h]

theorem toolContents_cleanMsgs (l : List CleanMsg) :
    toolContents (l.map cleanToMsg) = [] := by
  induction l with
  | nil => rfl
  | cons m rest ih => cases m <;> simpa [toolContents, cleanToMsg] using ih

theorem toolContents_planning (env : AgentEnv) (hist : HistState)
    (input : TurnInput) :
    toolContents (planningMessages env hist input) = [] := by
  have h := toolContents_cleanMsgs
    ((get_history_messages hist (resolved_session input) 2).1)
  simp only [planningMessages, toolContents] at h ⊢
  simp only [List.filterMap_cons, List.filterMap_append] at h ⊢
  simp [h]

theorem main_eq_valid (env : AgentEnv) (saveOk : Bool) (maxIter : Nat)
    (hist : HistState) (input : TurnInput)
    (hu : input.userId ≠ "") (hc : input.campaign ≠ "")
    (hpr : input.prompt ≠ "")
    (hsid : pyStartsWith (resolved_session input) (input.userId ++ "-") = true) :
    main env saveOk maxIter hist input = mainValid env saveOk maxIter hist input := by
  simp only [main]
  rw [if_neg (by simp [hu, hc, hpr]), if_neg (by simp [hsid])]

theorem get_tools_summary_ne (executed : List String) (h : executed ≠ []) :
    get_tools_summary executed ≠ "" := by
  simp only [get_tools_summary]
  rw [if_neg (by simpa using h)]
  intro hcontra
  have hlen := congrArg String.length hcontra
  rw [String.length_append] at hlen
  have h6 : ("\n\n---\n" : String).length = 6 := rfl
  simp [h6] at hlen

/-- C6.  A turn request whose (supplied) session id does not start with
`{userId}-` is rejected with the invalid-session error before any external
call: no history read, no LLM invocation, no tool execution, and no history
write — the effect log is empty and the history state is untouched. -/
theorem claim6_theorem (env : AgentEnv) (saveOk : Bool) (maxIter : Nat)
    (hist : HistState) (input : TurnInput) (s : String)
    (hses : input.sessionId = some s)
    (hu : input.userId ≠ "") (hc : input.campaign ≠ "")
    (hpr : input.prompt ≠ "")
    (hbad : pyStartsWith s (input.userId ++ "-") = false) :
    main env saveOk maxIter hist input =
      { result := MainResult.error
          "Invalid session: session does not belong to the authenticated user"
        hist := hist, effects := [], messages := [], executed := [] } := by
  have hsid : resolved_session input = s := by simp [resolved_session, hses]
  simp only [main]
  rw [if_neg (by simp [hu, hc, hpr]), if_pos (by rw [hsid]; exact hbad)]

/-- C6 witness: a concrete rejected request. -/
theorem claim6_witness :
    main { plan := fun _ => ("", []), toolRun := fun _ _ => "",
           gen := fun _ => "" } true 3 ⟨[], fun _ => []⟩
        ⟨"u", "c", "hello", some "v-1"⟩ =
      { result := MainResult.error
          "Invalid session: session does not belong to the authenticated user"
        hist := ⟨[], fun _ => []⟩, effects := [], messages := [],
        executed := [] } :=
  claim6_theorem _ true 3 _ _ "v-1" rfl (by decide) (by decide) (by decide)
    (by decide)

/-- C10.  `save_messages` never propagates a write failure: on failure the
exception is swallowed and both the durable store and the cache are left
unchanged; and `main` returns the same, successful, response whether or not
the history write succeeds — a failed write is invisible in the turn's
result. -/
theorem claim10_theorem (env : AgentEnv) (maxIter : Nat) (hist : HistState)
    (input : TurnInput)
    (hu : input.userId ≠ "") (hc : input.campaign ≠ "")
    (hpr : input.prompt ≠ "")
    (hsid : pyStartsWith (resolved_session input) (input.userId ++ "-") = true) :
    (∀ (st : HistState) (sid um am : String),
      save_messages st sid um am false = st) ∧
    (main env false maxIter hist input).result =
      (main env true maxIter hist input).result ∧
    (main env false maxIter hist input).result.isOk = true := by
  have hm : ∀ b, main env b maxIter hist input = mainValid env b maxIter hist input :=
    fun b => main_eq_valid env b maxIter hist input hu hc hpr hsid
  have hs := runLoop_isSome env input.userId input.campaign
    (resolved_session input) maxIter (maxIter + 1)
    (planningMessages env hist input) [] [] (by omega) (by omega)
  obtain ⟨out, hout⟩ := Option.isSome_iff_exists.mp hs
  refine ⟨fun st sid um am => rfl, ?_, ?_⟩
  · rw [hm false, hm true]
    simp only [mainValid]
    rw [hout]
    rfl
  · rw [hm false]
    simp only [mainValid]
    rw [hout]
    rfl

/-- A planner that asks for one `translate_runes` call on the first round
only. -/
def runesOnceEnv : AgentEnv :=
  { plan := fun ms => if countToolCallAI ms = 0
      then ("plan", [⟨"translate_runes", [("text", "hi")], "1"⟩])
      else ("done", [])
    toolRun := fun _ _ => "RUNES"
    gen := fun _ => "GEN" }

/-- C2 counterexample: a turn in which the only executed tool is
`translate_runes` completes without error, yet the creative generation LLM
is invoked zero times, not exactly once. -/
theorem claim2_counterexample :
    (main runesOnceEnv true 3 ⟨[], fun _ => []⟩
        ⟨"u", "c", "hello", none⟩).result.isOk = true ∧
    ¬ ((main runesOnceEnv true 3 ⟨[], fun _ => []⟩
        ⟨"u", "c", "hello", none⟩).genCount = 1) := by
  decide

/-- C2 (amended).  For every turn that completes validation, the creative
generation LLM is invoked exactly once — unless at least one tool was
executed, every `tools_executed` entry contains the passthrough tool name
`translate_runes`, and at least one tool-result message exists, in which
case it is invoked zero times (passthrough mode). -/
theorem claim2_theorem (env : AgentEnv) (saveOk : Bool) (maxIter : Nat)
    (hist : HistState) (input : TurnInput)
    (hu : input.userId ≠ "") (hc : input.campaign ≠ "")
    (hpr : input.prompt ≠ "")
    (hsid : pyStartsWith (resolved_session input) (input.userId ++ "-") = true) :
    (main env saveOk maxIter hist input).genCount =
      if passthroughOnly (main env saveOk maxIter hist input).executed &&
          !(toolContents (main env saveOk maxIter hist input).messages).isEmpty
        then 0 else 1 := by
  rw [main_eq_valid env saveOk maxIter hist input hu hc hpr hsid]
  simp only [mainValid]
  have hs := runLoop_isSome env input.userId input.campaign
    (resolved_session input) maxIter (maxIter + 1)
    (planningMessages env hist input) [] [] (by omega) (by omega)
  obtain ⟨out, hout⟩ := Option.isSome_iff_exists.mp hs
  obtain ⟨m', e', f'⟩ := out
  simp only [hout]
  have hinv := runLoop_inv env input.userId input.campaign
    (resolved_session input) maxIter (maxIter + 1)
    (planningMessages env hist input) [] [] m' e' f' hout
  simp only [finishTurn, RunOut.genCount]
  by_cases hcond : (passthroughOnly e' && !(toolContents m').isEmpty) = true
  · rw [if_pos hcond, if_pos hcond]
    simp only [List.count_append]
    rw [hinv.2.1, preEffects_count_genCall]
    simp [List.count_cons]
  · rw [if_neg hcond, if_neg hcond]
    simp only [List.count_append]
    rw [hinv.2.1, preEffects_count_genCall]
    simp [List.count_cons]

/-- A planner that asks for one `roll_dice` call on the first round only. -/
def diceOnceEnv : AgentEnv :=
  { plan := fun ms => if countToolCallAI ms = 0
      then ("plan", [⟨"roll_dice", [("sides", "20")], "1"⟩]) else ("done", [])
    toolRun := fun _ _ => "17"
    gen := fun _ => "ANSWER" }

/-- C2 witness: a concrete non-passthrough turn, generation invoked once. -/
theorem claim2_witness :
    (main diceOnceEnv true 3 ⟨[], fun _ => []⟩ ⟨"u", "c", "hello", none⟩).genCount =
      if passthroughOnly
          (main diceOnceEnv true 3 ⟨[], fun _ => []⟩ ⟨"u", "c", "hello", none⟩).executed &&
          !(toolContents
            (main diceOnceEnv true 3 ⟨[], fun _ => []⟩ ⟨"u", "c", "hello", none⟩).messages).isEmpty
        then 0 else 1 :=
  claim2_theorem diceOnceEnv true 3 ⟨[], fun _ => []⟩ ⟨"u", "c", "hello", none⟩
    (by decide) (by decide) (by decide) (by decide)

/-- C9.  When at least one tool was executed and every planned tool call is
the passthrough tool `translate_runes`, the turn's response is the content
of the last tool result (plus the tools-used summary) and the creative
generation LLM is not invoked at all. -/
theorem claim9_theorem (env : AgentEnv) (saveOk : Bool) (maxIter : Nat)
    (hist : HistState) (input : TurnInput)
    (hu : input.userId ≠ "") (hc : input.campaign ≠ "")
    (hpr : input.prompt ≠ "")
    (hsid : pyStartsWith (resolved_session input) (input.userId ++ "-") = true)
    (hnames : ∀ ms tc, tc ∈ (env.plan ms).2 → tc.name = "translate_runes")
    (hx : (main env saveOk maxIter hist input).executed ≠ []) :
    (main env saveOk maxIter hist input).genCount = 0 ∧
    ∃ r, (toolContents (main env saveOk maxIter hist input).messages).getLast? =
        some r ∧
      (main env saveOk maxIter hist input).result =
        MainResult.ok
          (r ++ get_tools_summary (main env saveOk maxIter hist input).executed)
          input.userId input.campaign (resolved_session input) := by
  rw [main_eq_valid env saveOk maxIter hist input hu hc hpr hsid] at hx ⊢
  simp only [mainValid] at hx ⊢
  have hs := runLoop_isSome env input.userId input.campaign
    (resolved_session input) maxIter (maxIter + 1)
    (planningMessages env hist input) [] [] (by omega) (by omega)
  obtain ⟨out, hout⟩ := Option.isSome_iff_exists.mp hs
  obtain ⟨m', e', f'⟩ := out
  simp only [hout] at hx ⊢
  simp only [finishTurn] at hx ⊢
  have hall := runLoop_names env input.userId input.campaign
    (resolved_session input) maxIter "translate_runes" hnames (maxIter + 1)
    (planningMessages env hist input) [] [] m' e' f' hout
    (by intro s hs2; simp at hs2)
  have hinv := runLoop_inv env input.userId input.campaign
    (resolved_session input) maxIter (maxIter + 1)
    (planningMessages env hist input) [] [] m' e' f' hout
  have hTlen : (toolContents m').length = e'.length := by
    have h3 := hinv.2.2
    rw [toolContents_planning] at h3
    simpa using h3
  have hTne : toolContents m' ≠ [] := by
    intro hnil
    rw [hnil] at hTlen
    simp only [List.length_nil] at hTlen
    exact hx (List.length_eq_zero.mp hTlen.symm)
  have hEmpF : e'.isEmpty = false := by
    cases e' with
    | nil => exact absurd rfl hx
    | cons a l => rfl
  have hTEmpF : (toolContents m').isEmpty = false := by
    cases hmt : toolContents m' with
    | nil => exact absurd hmt hTne
    | cons a l => rfl
  have hcond : (passthroughOnly e' && !(toolContents m').isEmpty) = true := by
    simp [passthroughOnly, hEmpF, hTEmpF, List.all_eq_true]
    exact hall
  have hsum := get_tools_summary_ne e' hx
  obtain ⟨r, hr⟩ : ∃ r, (toolContents m').getLast? = some r :=
    Option.isSome_iff_exists.mp (List.getLast?_isSome.mpr hTne)
  constructor
  · simp only [RunOut.genCount]
    rw [if_pos hcond]
    simp only [List.count_append]
    rw [hinv.2.1, preEffects_count_genCall]
    simp [List.count_cons]
  · refine ⟨r, hr, ?_⟩
    rw [if_pos hcond, if_neg hsum, hr]
    rfl

/-- A planner that always requests one `translate_runes` call. -/
def runesAlwaysEnv : AgentEnv :=
  { plan := fun _ => ("plan", [⟨"translate_runes", [("text", "hi")], "1"⟩])
    toolRun := fun _ _ => "RUNES"
    gen := fun _ => "GEN" }

/-- C9 witness: a concrete passthrough-only turn. -/
theorem claim9_witness :
    (main runesAlwaysEnv true 3 ⟨[], fun _ => []⟩
        ⟨"u", "c", "hello", none⟩).genCount = 0 ∧
    ∃ r, (toolContents (main runesAlwaysEnv true 3 ⟨[], fun _ => []⟩
        ⟨"u", "c", "hello", none⟩).messages).getLast? = some r ∧
      (main runesAlwaysEnv true 3 ⟨[], fun _ => []⟩
          ⟨"u", "c", "hello", none⟩).result =
        MainResult.ok (r ++ get_tools_summary
            (main runesAlwaysEnv true 3 ⟨[], fun _ => []⟩
              ⟨"u", "c", "hello", none⟩).executed)
          "u" "c" (resolved_session ⟨"u", "c", "hello", none⟩) :=
  claim9_theorem runesAlwaysEnv true 3 ⟨[], fun _ => []⟩
    ⟨"u", "c", "hello", none⟩ (by decide) (by decide) (by decide) (by decide)
    (by intro ms tc h
        simp only [runesAlwaysEnv, List.mem_singleton] at h
        rw [h])
    (by decide)

/-- C10 witness: a concrete turn whose failed history write is invisible. -/
theorem claim10_witness :
    (∀ (st : HistState) (sid um am : String),
      save_messages st sid um am false = st) ∧
    (main diceOnceEnv false 3 ⟨[], fun _ => []⟩
        ⟨"u", "c", "hello", none⟩).result =
      (main diceOnceEnv true 3 ⟨[], fun _ => []⟩
        ⟨"u", "c", "hello", none⟩).result ∧
    (main diceOnceEnv false 3 ⟨[], fun _ => []⟩
        ⟨"u", "c", "hello", none⟩).result.isOk = true :=
  claim10_theorem diceOnceEnv 3 ⟨[], fun _ => []⟩ ⟨"u", "c", "hello", none⟩
    (by decide) (by decide) (by decide) (by decide)

/-- C1 counterexample: with a planning stub that always returns a
`translate_runes` tool call and `MAX_ITERATIONS = 3`, the loop performs
exactly 3 tool-call rounds, but the final generation call is NOT made
(passthrough mode): the generation count is 0, not exactly one. -/
theorem claim1_counterexample :
    countToolCallAI (main runesAlwaysEnv true 3 ⟨[], fun _ => []⟩
        ⟨"u", "c", "hello", none⟩).messages = 3 ∧
    ¬ ((main runesAlwaysEnv true 3 ⟨[], fun _ => []⟩
        ⟨"u", "c", "hello", none⟩).genCount = 1) := by
  decide

/-- C1 (amended).  Every run performs at most `MAX_ITERATIONS` planning
rounds that yield tool calls.  With a planning stub returning a tool call
on every invocation, a validated run performs exactly `MAX_ITERATIONS`
tool-call rounds (one planning-LLM call and at least one tool execution
each), then terminates via the cap without a further planning call (the cap
message, which carries no tool calls, is last); afterwards at most one
generation call is made — exactly one unless the passthrough rule of C9
suppresses it — and the turn returns a success response. -/
theorem claim1_theorem :
    (∀ (env : AgentEnv) (saveOk : Bool) (maxIter : Nat) (hist : HistState)
      (input : TurnInput),
        countToolCallAI (main env saveOk maxIter hist input).messages ≤ maxIter) ∧
    (∀ (env : AgentEnv) (saveOk : Bool) (maxIter : Nat) (hist : HistState)
      (input : TurnInput),
        input.userId ≠ "" → input.campaign ≠ "" → input.prompt ≠ "" →
        pyStartsWith (resolved_session input) (input.userId ++ "-") = true →
        (∀ ms, (env.plan ms).2 ≠ []) →
        countToolCallAI (main env saveOk maxIter hist input).messages = maxIter ∧
        (main env saveOk maxIter hist input).effects.count Effect.planCall =
          maxIter ∧
        maxIter ≤ (main env saveOk maxIter hist input).executed.length ∧
        (main env saveOk maxIter hist input).messages.getLast? =
          some (Msg.ai "[MAX_ITERATIONS_REACHED]" []) ∧
        (main env saveOk maxIter hist input).genCount ≤ 1 ∧
        (main env saveOk maxIter hist input).result.isOk = true) := by
  constructor
  · intro env saveOk maxIter hist input
    simp only [main]
    by_cases h1 : input.userId = "" ∨ input.campaign = "" ∨ input.prompt = ""
    · rw [if_pos h1]
      simp [countToolCallAI]
    · rw [if_neg h1]
      by_cases h2 : pyStartsWith (resolved_session input)
          (input.userId ++ "-") = false
      · rw [if_pos h2]
        simp [countToolCallAI]
      · rw [if_neg h2]
        simp only [mainValid]
        cases hrl : runLoop env input.userId input.campaign
            (resolved_session input) maxIter (maxIter + 1)
            (planningMessages env hist input) [] [] with
        | none => simp [countToolCallAI]
        | some out =>
          obtain ⟨m', e', f'⟩ := out
          have hinv := runLoop_inv env input.userId input.campaign
            (resolved_session input) maxIter (maxIter + 1)
            (planningMessages env hist input) [] [] m' e' f' hrl
          simp only [finishTurn]
          exact hinv.1 (by rw [countToolCallAI_planning]; omega)
  · intro env saveOk maxIter hist input hu hc hpr hsid hstub
    rw [main_eq_valid env saveOk maxIter hist input hu hc hpr hsid]
    simp only [mainValid]
    obtain ⟨m', e', f', hrun, j1, j2, j3, j4⟩ :=
      runLoop_stub env input.userId input.campaign (resolved_session input)
        maxIter hstub (maxIter + 1) (planningMessages env hist input) [] []
        (by rw [countToolCallAI_planning]; omega)
        (by rw [countToolCallAI_planning]; omega)
    simp only [hrun]
    have hinv := runLoop_inv env input.userId input.campaign
      (resolved_session input) maxIter (maxIter + 1)
      (planningMessages env hist input) [] [] m' e' f' hrun
    rw [countToolCallAI_planning] at j2 j3
    simp only [List.count_nil, List.length_nil, Nat.sub_zero, Nat.zero_add,
      Nat.add_zero] at j2 j3
    simp only [finishTurn, RunOut.genCount]
    refine ⟨j1, ?_, by simpa using j3, j4, ?_, rfl⟩
    · simp only [List.count_append]
      rw [preEffects_count_planCall, j2]
      split <;> simp [List.count_cons]
    · simp only [List.count_append]
      rw [hinv.2.1, preEffects_count_genCall]
      split <;> simp [List.count_cons]

/-- A planner that always requests one `roll_dice` call. -/
def diceAlwaysEnv : AgentEnv :=
  { plan := fun _ => ("plan", [⟨"roll_dice", [("sides", "20")], "1"⟩])
    toolRun := fun _ _ => "17"
    gen := fun _ => "ANSWER" }

/-- C1 witness: a concrete always-tool-call stub run at the cap. -/
theorem claim1_witness :
    countToolCallAI (main diceAlwaysEnv true 3 ⟨[], fun _ => []⟩
        ⟨"u", "c", "hello", none⟩).messages = 3 ∧
    (main diceAlwaysEnv true 3 ⟨[], fun _ => []⟩
        ⟨"u", "c", "hello", none⟩).effects.count Effect.planCall = 3 ∧
    3 ≤ (main diceAlwaysEnv true 3 ⟨[], fun _ => []⟩
        ⟨"u", "c", "hello", none⟩).executed.length ∧
    (main diceAlwaysEnv true 3 ⟨[], fun _ => []⟩
        ⟨"u", "c", "hello", none⟩).messages.getLast? =
      some (Msg.ai "[MAX_ITERATIONS_REACHED]" []) ∧
    (main diceAlwaysEnv true 3 ⟨[], fun _ => []⟩
        ⟨"u", "c", "hello", none⟩).genCount ≤ 1 ∧
    (main diceAlwaysEnv true 3 ⟨[], fun _ => []⟩
        ⟨"u", "c", "hello", none⟩).result.isOk = true :=
  claim1_theorem.2 diceAlwaysEnv true 3 ⟨[], fun _ => []⟩
    ⟨"u", "c", "hello", none⟩ (by decide) (by decide) (by decide) (by decide)
    (fun ms => by simp [diceAlwaysEnv])

end DndBuddy
